import Mathlib

/-!
Verification of `monitoring/api/v3/metrics_list.py`.

Strings are embedded as `List Char` (`Str`); Python `str.split(sep)` is
`List.splitOn`, `sep.join` is `List.intercalate`, and an optional value
(`dict.get`) is `Option Str`.  A Python expression that can raise an
uncaught exception (out-of-bounds index, `KeyError`, `AttributeError`)
is embedded as an `Option`-valued function returning `none` at the crash.
-/

namespace MetricsList

abbrev Str := List Char

/-- Python `str(x)` as used by `'{0}'.format(x)` on a possibly-`None`
string value: `None` formats as the literal text `None`. -/
def pyStr : Option Str → Str
  | none => "None".data
  | some s => s

/-- Python truthiness of a possibly-`None` string: `None` and the empty
string are falsey, every other string is truthy. -/
def pyTruthy : Option Str → Bool
  | none => false
  | some [] => false
  | some (_ :: _) => true

/-- Python `'/'.join(pieces)`. -/
def joinSlash (l : List Str) : Str := List.intercalate ['/'] l

/-- Embedding of `get_type_pieces` (metrics_list.py lines 49-80).
Returns the pieces of a metric type: group, service, path.
`none` models the uncaught Python `IndexError` raised by `name_split[1]`
when `name_split` has fewer than two elements. -/
def get_type_pieces (type : Str) : Option (Str × Str × Str) :=
  let name_split := type.splitOn '/'
  let group := (name_split.headI.splitOn '.').headI
  if group = "agent".data then
    match name_split[1]? with
    | none => none
    | some service => some (group, service, joinSlash (name_split.drop 2))
  else if group = "aws".data then
    match name_split[1]? with
    | none => none
    | some service => some (group, service, joinSlash (name_split.drop 2))
  else if group = "custom".data ∧ 2 < name_split.length then
    match name_split[1]? with
    | none => none
    | some service => some (group, service, joinSlash (name_split.drop 2))
  else if group = "custom".data then
    some (group, [], joinSlash (name_split.drop 1))
  else
    some ("gcp".data, group, joinSlash (name_split.drop 1))

/-- Embedding of `get_path_prefix` (metrics_list.py lines 83-106).
Reconstructs the metric type name's path prefix from a group code and a
service; for a group outside the four known codes the Python function
prints an error to stderr and falls through returning `None` (`none`). -/
def get_path_prefix (g s : Str) : Option Str :=
  if g = "aws".data then some ("aws.googleapis.com/".data ++ s)
  else if g = "agent".data then some ("agent.googleapis.com/".data ++ s)
  else if g = "gcp".data then some (s ++ ".googleapis.com".data)
  else if g = "custom".data then
    if s ≠ [] then some ("custom.googleapis.com/".data ++ s)
    else some ("custom.googleapis.com".data)
  else none

/-- Embedding of `get_group_title_and_descr` (metrics_list.py lines
109-123).  The trailing `else` returns the GCP title and description for
every group code other than `agent`, `aws`, `custom`. -/
def get_group_title_and_descr (g : Str) : Str × Str :=
  if g = "agent".data then
    ("Agent metrics".data,
     "Metrics collected by the Stackdriver Monitoring agent.".data)
  else if g = "aws".data then
    ("Amazon Web Services metrics".data,
     "Metrics from Amazon Web Services.".data)
  else if g = "custom".data then
    ("Custom metrics".data,
     "Custom metrics defined by users.".data)
  else
    ("Google Cloud Platform metrics".data,
     "Metrics from Google Cloud Platform services.".data)

/-- C1: for every well-formed metric type string (at least two
slash-separated segments), `get_type_pieces` returns the triple given by
the domain-token rules applied in order: token `agent` or `aws` gives
that group, the second segment as service and the remaining segments
joined by `/` as path; token `custom` with more than 2 segments gives
group `custom`, second segment as service, remaining segments as path;
token `custom` otherwise gives group `custom`, empty service and all
segments after the first as path; any other token gives group `gcp`
with the token itself as service and all segments after the first as
path. -/
theorem get_type_pieces_rules (type s0 s1 : Str) (rest : List Str)
    (h : type.splitOn '/' = s0 :: s1 :: rest) :
    get_type_pieces type =
      (let dt := (s0.splitOn '.').headI
       if dt = "agent".data ∨ dt = "aws".data then
         some (dt, s1, joinSlash rest)
       else if dt = "custom".data then
         (if rest = [] then some ("custom".data, [], joinSlash (s1 :: rest))
          else some ("custom".data, s1, joinSlash rest))
       else some ("gcp".data, dt, joinSlash (s1 :: rest))) := by
  simp only [get_type_pieces, h, List.headI_cons, List.getElem?_cons_succ,
    List.getElem?_cons_zero, List.drop_succ_cons, List.drop_zero,
    List.length_cons]
  by_cases ha : (s0.splitOn '.').headI = "agent".data
  · simp [ha]
  · by_cases hw : (s0.splitOn '.').headI = "aws".data
    · simp [ha, hw]
    · by_cases hc : (s0.splitOn '.').headI = "custom".data
      · cases rest with
        | nil => simp [ha, hw, hc]
        | cons r rs => simp [ha, hw, hc]
      · simp [ha, hw, hc]

/-- Witness for C1 at the spec's concrete example. -/
theorem get_type_pieces_rules_witness :
    "compute.googleapis.com/instance/cpu/utilization".data.splitOn '/' =
      "compute.googleapis.com".data :: "instance".data ::
        ["cpu".data, "utilization".data] ∧
    get_type_pieces "compute.googleapis.com/instance/cpu/utilization".data =
      some ("gcp".data, "compute".data, "instance/cpu/utilization".data) := by
  constructor
  · decide
  · rw [get_type_pieces_rules
      "compute.googleapis.com/instance/cpu/utilization".data
      "compute.googleapis.com".data "instance".data
      ["cpu".data, "utilization".data] (by decide)]
    decide

/-- No piece produced by `splitOnP p` contains an element satisfying `p`. -/
theorem splitOnP_pieces_no_sep (p : Char → Bool) (l : List Char) :
    ∀ piece ∈ l.splitOnP p, ∀ y ∈ piece, p y = false := by
  induction l with
  | nil =>
    intro piece hp y hy
    simp only [List.splitOnP_nil, List.mem_singleton] at hp
    subst hp; simp at hy
  | cons x xs ih =>
    intro piece hp y hy
    rw [List.splitOnP_cons] at hp
    by_cases hx : p x
    · rw [if_pos hx] at hp
      rcases List.mem_cons.mp hp with h1 | h2
      · subst h1; simp at hy
      · exact ih piece h2 y hy
    · rw [if_neg hx] at hp
      obtain ⟨hd, tl, hsplit⟩ : ∃ hd tl, xs.splitOnP p = hd :: tl := by
        rcases hxs : xs.splitOnP p with _ | ⟨hd, tl⟩
        · exact absurd hxs (List.splitOnP_ne_nil p xs)
        · exact ⟨hd, tl, rfl⟩
      rw [hsplit] at hp
      simp only [List.modifyHead] at hp
      rcases List.mem_cons.mp hp with h1 | h2
      · subst h1
        rcases List.mem_cons.mp hy with rfl | hy2
        · simpa using hx
        · exact ih hd (by rw [hsplit]; exact List.mem_cons_self _ _) y hy2
      · exact ih piece (by rw [hsplit]; exact List.mem_cons_of_mem _ h2) y hy

/-- The separator never occurs inside a piece of `splitOn`. -/
theorem splitOn_pieces_no_sep (c : Char) (l : Str) :
    ∀ piece ∈ l.splitOn c, c ∉ piece := by
  intro piece hp hc
  have h := splitOnP_pieces_no_sep (· == c) l piece
    (by simpa [List.splitOn] using hp) c hc
  simp at h

/-- `splitOn` always returns at least one piece. -/
theorem splitOn_ne_nil (c : Char) (l : Str) : l.splitOn c ≠ [] := by
  simpa [List.splitOn] using List.splitOnP_ne_nil (· == c) l

theorem intercalate_cons_cons (c : Char) (a b : Str) (r : List Str) :
    List.intercalate [c] (a :: b :: r) = a ++ c :: List.intercalate [c] (b :: r) := by
  simp [List.intercalate]

/-- The first piece of a slash-join is a prefix of the join. -/
theorem self_prefix_intercalate (c : Char) (a : Str) (r : List Str) :
    a <+: List.intercalate [c] (a :: r) := by
  cases r with
  | nil => simp [List.intercalate]
  | cons b rs =>
    rw [intercalate_cons_cons]
    exact ⟨c :: List.intercalate [c] (b :: rs), rfl⟩

theorem getLast?_ne_of_not_mem {s : Str} {c : Char} (hs : s ≠ []) (h : c ∉ s) :
    s.getLast? ≠ some c := by
  rw [List.getLast?_eq_getLast s hs]
  intro hc
  exact h (Option.some.inj hc ▸ List.getLast_mem hs)

/-- The head segment of a split is a prefix of the original string. -/
theorem head_prefix_of_splitOn (type s0 : Str) (tail : List Str)
    (hns : type.splitOn '/' = s0 :: tail) : s0 <+: type := by
  have ht : List.intercalate ['/'] (s0 :: tail) = type := by
    rw [← hns]; exact List.intercalate_splitOn type '/'
  rw [← ht]
  exact self_prefix_intercalate '/' s0 tail

/-- The first two segments of a split, rejoined around a slash, form a
prefix of the original string. -/
theorem two_head_prefix_of_splitOn (type s0 s1 : Str) (t2 : List Str)
    (hns : type.splitOn '/' = s0 :: s1 :: t2) : (s0 ++ '/' :: s1) <+: type := by
  have ht : List.intercalate ['/'] (s0 :: s1 :: t2) = type := by
    rw [← hns]; exact List.intercalate_splitOn type '/'
  obtain ⟨t, htt⟩ := self_prefix_intercalate '/' s1 t2
  refine ⟨t, ?_⟩
  rw [← ht, intercalate_cons_cons]
  simp [htt]

/-- C2: composing `get_type_pieces` with `get_path_prefix` on a
well-formed type string of the resulting group's shape (its first
segment is the group's canonical domain -- `service.googleapis.com` for
gcp, `group.googleapis.com` otherwise -- and the service segment is
nonempty for aws/agent) yields a defined prefix string that is a prefix
of the original type string and never ends in a slash. -/
theorem classify_prefix_spec (type g s p : Str)
    (hc : get_type_pieces type = some (g, s, p))
    (hgcp : g = "gcp".data → (type.splitOn '/').headI = s ++ ".googleapis.com".data)
    (hdom : g ≠ "gcp".data → (type.splitOn '/').headI = g ++ ".googleapis.com".data)
    (hsvc : g = "aws".data ∨ g = "agent".data → s ≠ []) :
    ∃ pre, get_path_prefix g s = some pre ∧ pre <+: type ∧
      pre.getLast? ≠ some '/' := by
  obtain ⟨s0, tail, hns⟩ : ∃ s0 tail, type.splitOn '/' = s0 :: tail := by
    rcases hh : type.splitOn '/' with _ | ⟨s0, tail⟩
    · exact absurd hh (splitOn_ne_nil '/' type)
    · exact ⟨s0, tail, rfl⟩
  have hhead : (type.splitOn '/').headI = s0 := by rw [hns]; rfl
  have hpieces := splitOn_pieces_no_sep '/' type
  simp only [get_type_pieces, hns, List.headI_cons] at hc
  split_ifs at hc with h1 h2 h3 h4
  -- agent branch
  · cases tail with
    | nil => simp at hc
    | cons s1 t2 =>
      simp only [List.getElem?_cons_succ, List.getElem?_cons_zero,
        List.drop_succ_cons, List.drop_zero, Option.some.injEq,
        Prod.mk.injEq] at hc
      obtain ⟨hg, hs, -⟩ := hc
      subst hg; rw [h1] at hsvc hgcp hdom ⊢
      have hs0 : s0 = "agent.googleapis.com".data := by
        rw [← hhead]; exact hdom (by decide)
      have hsne : s ≠ [] := hsvc (Or.inr rfl)
      have hnosl : '/' ∉ s := by
        refine hpieces s ?_
        rw [hns, hs]
        exact List.mem_cons_of_mem _ (List.mem_cons_self _ _)
      refine ⟨"agent.googleapis.com/".data ++ s, rfl, ?_, ?_⟩
      · have := two_head_prefix_of_splitOn type s0 s1 t2 hns
        rw [hs0, hs] at this
        simpa using this
      · rw [show ("agent.googleapis.com/".data ++ s).getLast? = s.getLast? by
          rw [List.getLast?_append, List.getLast?_eq_getLast s hsne]; rfl]
        exact getLast?_ne_of_not_mem hsne hnosl
  -- aws branch
  · cases tail with
    | nil => simp at hc
    | cons s1 t2 =>
      simp only [List.getElem?_cons_succ, List.getElem?_cons_zero,
        List.drop_succ_cons, List.drop_zero, Option.some.injEq,
        Prod.mk.injEq] at hc
      obtain ⟨hg, hs, -⟩ := hc
      subst hg; rw [h2] at hsvc hgcp hdom ⊢
      have hs0 : s0 = "aws.googleapis.com".data := by
        rw [← hhead]; exact hdom (by decide)
      have hsne : s ≠ [] := hsvc (Or.inl rfl)
      have hnosl : '/' ∉ s := by
        refine hpieces s ?_
        rw [hns, hs]
        exact List.mem_cons_of_mem _ (List.mem_cons_self _ _)
      refine ⟨"aws.googleapis.com/".data ++ s, rfl, ?_, ?_⟩
      · have := two_head_prefix_of_splitOn type s0 s1 t2 hns
        rw [hs0, hs] at this
        simpa using this
      · rw [show ("aws.googleapis.com/".data ++ s).getLast? = s.getLast? by
          rw [List.getLast?_append, List.getLast?_eq_getLast s hsne]; rfl]
        exact getLast?_ne_of_not_mem hsne hnosl
  -- custom branch, more than two segments
  · cases tail with
    | nil => simp at hc
    | cons s1 t2 =>
      simp only [List.getElem?_cons_succ, List.getElem?_cons_zero,
        List.drop_succ_cons, List.drop_zero, Option.some.injEq,
        Prod.mk.injEq] at hc
      obtain ⟨hg, hs, -⟩ := hc
      subst hg; rw [h3.1] at hgcp hdom ⊢
      have hs0 : s0 = "custom.googleapis.com".data := by
        rw [← hhead]; exact hdom (by decide)
      by_cases hsne : s = []
      · subst hsne
        refine ⟨"custom.googleapis.com".data, rfl, ?_, by decide⟩
        rw [← hs0]
        exact head_prefix_of_splitOn type s0 _ hns
      · have hnosl : '/' ∉ s := by
          refine hpieces s ?_
          rw [hns, hs]
          exact List.mem_cons_of_mem _ (List.mem_cons_self _ _)
        refine ⟨"custom.googleapis.com/".data ++ s, ?_, ?_, ?_⟩
        · simp [ get_path_prefix, hsne]
        · have := two_head_prefix_of_splitOn type s0 s1 t2 hns
          rw [hs0, hs] at this
          simpa using this
        · rw [show ("custom.googleapis.com/".data ++ s).getLast? = s.getLast? by
            rw [List.getLast?_append, List.getLast?_eq_getLast s hsne]; rfl]
          exact getLast?_ne_of_not_mem hsne hnosl
  -- custom branch, at most two segments
  · simp only [Option.some.injEq, Prod.mk.injEq] at hc
    obtain ⟨hg, hs, -⟩ := hc
    subst hg; rw [h4] at hgcp hdom ⊢
    have hs0 : s0 = "custom.googleapis.com".data := by
      rw [← hhead]; exact hdom (by decide)
    refine ⟨"custom.googleapis.com".data, by rw [← hs]; rfl, ?_, by decide⟩
    rw [← hs0]
    exact head_prefix_of_splitOn type s0 tail hns
  -- gcp branch
  · simp only [Option.some.injEq, Prod.mk.injEq] at hc
    obtain ⟨hg, hs, -⟩ := hc
    subst hg
    have hs0 : s0 = s ++ ".googleapis.com".data := by
      rw [← hhead]; exact hgcp rfl
    refine ⟨s ++ ".googleapis.com".data, rfl, ?_, ?_⟩
    · rw [← hs0]
      exact head_prefix_of_splitOn type s0 tail hns
    · rw [show (s ++ ".googleapis.com".data).getLast? =
          ".googleapis.com".data.getLast? by rw [List.getLast?_append]; rfl]
      decide

/-- Witness for C2 at the agent example from the spec. -/
theorem classify_prefix_spec_witness :
    ∃ pre, get_path_prefix "agent".data "nginx".data = some pre ∧
      pre <+: "agent.googleapis.com/nginx/requests".data ∧
      pre.getLast? ≠ some '/' :=
  classify_prefix_spec "agent.googleapis.com/nginx/requests".data
    "agent".data "nginx".data "requests".data (by decide)
    (by decide) (fun _ => by decide) (fun _ => by decide)

/-- C3: on a type with fewer than 2 segments the code does not fail with
a recoverable malformed-type signal: a one-segment type with domain
token `agent` hits the unchecked out-of-bounds index `name_split[1]`
(modelled `none`, an uncaught `IndexError`), while a one-segment type
with domain token `custom` silently classifies successfully. -/
theorem get_type_pieces_short_input :
    ("agent".data.splitOn '/').length < 2 ∧
    get_type_pieces "agent".data = none ∧
    ("custom".data.splitOn '/').length < 2 ∧
    get_type_pieces "custom".data = some ("custom".data, [], []) := by
  decide

/-- C7: for a group code outside the four known codes the title lookup
does not fail; it silently returns the GCP title and description. -/
theorem get_group_title_fallback :
    "bogus".data ≠ "gcp".data ∧ "bogus".data ≠ "aws".data ∧
    "bogus".data ≠ "agent".data ∧ "bogus".data ≠ "custom".data ∧
    get_group_title_and_descr "bogus".data =
      ("Google Cloud Platform metrics".data,
       "Metrics from Google Cloud Platform services.".data) := by
  decide

/-- A metric label record: `key` is a required field (`label[u'key']`);
`description` and `valueType` are read with `dict.get` and may be
absent. -/
structure Label where
  key : Str
  description : Option Str
  valueType : Option Str
deriving DecidableEq

/-- A metric descriptor record as consumed by the script: `type` is
read with mandatory indexing (`descr[u'type']`); the remaining fields
are read with `dict.get` and may be absent (`labels` with
`dict.get(u'labels', [])`). -/
structure MetricDescriptor where
  type : Str
  displayName : Option Str
  metricKind : Option Str
  valueType : Option Str
  unit : Option Str
  description : Option Str
  labels : Option (List Label)
deriving DecidableEq

instance : Inhabited Label := ⟨⟨[], none, none⟩⟩

instance : Inhabited MetricDescriptor :=
  ⟨⟨[], none, none, none, none, none, none⟩⟩

/-- Python `d[k] = v` on a dict embedded as an insertion-ordered
association list: an existing key keeps its position and gets the new
value, a new key is appended at the end. -/
def dictInsert {β : Type} (k : Str) (v : β) :
    List (Str × β) → List (Str × β)
  | [] => [(k, v)]
  | (k', v') :: rest =>
    if k' = k then (k, v) :: rest else (k', v') :: dictInsert k v rest

/-- Python `d[k]` lookup (`some`) and `k in d` (`isSome`) on the same
embedding. -/
def dictFind {β : Type} (k : Str) : List (Str × β) → Option β
  | [] => none
  | (k', v') :: rest => if k' = k then some v' else dictFind k rest

/-- The keys of a dict, in insertion order. -/
def dictKeys {β : Type} (d : List (Str × β)) : List Str := d.map Prod.fst

/-- Python `s.add(x)` on a set embedded as a duplicate-free list in
insertion order (Python set iteration order is unspecified; every
consumer in the script sorts before iterating, so any enumeration
order is an admissible embedding). -/
def setAdd (x : Str) (s : List Str) : List Str :=
  if x ∈ s then s else s ++ [x]

/-- The module-level accumulation state (metrics_list.py lines
126-130): the group names, group code to set of services, `'g/s'` code
to map of paths to metric descriptors, and the set of `'g/s'` services
with time series data. -/
structure Catalog where
  GROUP_SET : List Str
  SERVICE_SET : List (Str × List Str)
  METRIC_DICT : List (Str × List (Str × MetricDescriptor))
  TIME_SERIES_SET : List Str
deriving DecidableEq

def emptyCatalog : Catalog := ⟨[], [], [], []⟩

/-- Lines 168-171 of metrics_list.py: register the group the first
time it is seen, creating its empty service set. -/
def register_group (cat : Catalog) (g : Str) : Catalog :=
  if g ∉ cat.GROUP_SET then
    { cat with GROUP_SET := cat.GROUP_SET ++ [g],
               SERVICE_SET := dictInsert g [] cat.SERVICE_SET }
  else cat

/-- Line 172 of metrics_list.py: `SERVICE_SET[g].add(s)`; `none` models
the KeyError when `g` is not a key (unreachable after
`register_group`). -/
def add_service (cat : Catalog) (g s : Str) : Option Catalog :=
  match dictFind g cat.SERVICE_SET with
  | none => none
  | some sset =>
    some { cat with SERVICE_SET := dictInsert g (setAdd s sset) cat.SERVICE_SET }

/-- Lines 177-181 of metrics_list.py: create the empty path map the
first time the `'g/s'` key is seen.  The time-series probe that the
source sketches at this point is commented out, so nothing else
happens. -/
def ensure_gs (cat : Catalog) (gs : Str) : Catalog :=
  if dictFind gs cat.METRIC_DICT = none then
    { cat with METRIC_DICT := dictInsert gs [] cat.METRIC_DICT }
  else cat

/-- Line 183 of metrics_list.py: `METRIC_DICT[gs][p] = descr`; `none`
models the KeyError when `gs` is not a key (unreachable after
`ensure_gs`). -/
def store_metric (cat : Catalog) (gs p : Str) (descr : MetricDescriptor) :
    Option Catalog :=
  match dictFind gs cat.METRIC_DICT with
  | none => none
  | some pathmap =>
    some { cat with
      METRIC_DICT := dictInsert gs (dictInsert p descr pathmap) cat.METRIC_DICT }

/-- Lines 166-183 of metrics_list.py: the storage part of one loop
iteration, after the custom filter. -/
def store_descriptor (cat : Catalog) (g s p : Str)
    (descr : MetricDescriptor) : Option Catalog :=
  let gs := g ++ "/".data ++ s
  match add_service (register_group cat g) g s with
  | none => none
  | some c => store_metric (ensure_gs c gs) gs p descr

/-- One iteration of the descriptor loop in `read_metric_descriptors`
(metrics_list.py lines 158-183): classify the type, skip custom
metrics unless asked for, then register and store.  `none` models an
uncaught exception (the IndexError of the classifier or a dict
KeyError). -/
def read_one_descriptor (custom : Bool) (cat : Catalog)
    (descr : MetricDescriptor) : Option Catalog :=
  match get_type_pieces descr.type with
  | none => none
  | some (g, s, p) =>
    if g = "custom".data ∧ custom = false then some cat
    else store_descriptor cat g s p descr

/-- The descriptor loop of `read_metric_descriptors`: `count` is
incremented once per record, before the custom filter. -/
def read_descriptors_loop (custom : Bool) (cat : Catalog) (count : Nat) :
    List MetricDescriptor → Option (Catalog × Nat)
  | [] => some (cat, count)
  | descr :: rest =>
    match read_one_descriptor custom cat descr with
    | none => none
    | some cat' => read_descriptors_loop custom cat' (count + 1) rest

/-- Embedding of the ingestion phase of `read_metric_descriptors`
(metrics_list.py lines 157-184), applied to an already-fetched
descriptor list, starting from the initial (empty) module state.  The
`timeseries` flag only controls a diagnostic stderr line in the source
(the probe call itself is commented out), so it does not influence the
result. -/
def read_metric_descriptors (custom _timeseries : Bool)
    (descriptor_list : List MetricDescriptor) : Option (Catalog × Nat) :=
  read_descriptors_loop custom emptyCatalog 0 descriptor_list

theorem register_group_time_series (cat : Catalog) (g : Str) :
    (register_group cat g).TIME_SERIES_SET = cat.TIME_SERIES_SET := by
  unfold register_group; split_ifs <;> rfl

theorem ensure_gs_time_series (cat : Catalog) (gs : Str) :
    (ensure_gs cat gs).TIME_SERIES_SET = cat.TIME_SERIES_SET := by
  unfold ensure_gs; split_ifs <;> rfl

theorem add_service_time_series (cat cat' : Catalog) (g s : Str)
    (h : add_service cat g s = some cat') :
    cat'.TIME_SERIES_SET = cat.TIME_SERIES_SET := by
  unfold add_service at h
  rcases hf : dictFind g cat.SERVICE_SET with - | sset <;> rw [hf] at h
  · exact absurd h (by simp)
  · simp only [Option.some.injEq] at h; subst h; rfl

theorem store_metric_time_series (cat cat' : Catalog) (gs p : Str)
    (descr : MetricDescriptor) (h : store_metric cat gs p descr = some cat') :
    cat'.TIME_SERIES_SET = cat.TIME_SERIES_SET := by
  unfold store_metric at h
  rcases hf : dictFind gs cat.METRIC_DICT with - | pm <;> rw [hf] at h
  · exact absurd h (by simp)
  · simp only [Option.some.injEq] at h; subst h; rfl

theorem read_one_time_series_unchanged (custom : Bool) (cat cat' : Catalog)
    (d : MetricDescriptor) (h : read_one_descriptor custom cat d = some cat') :
    cat'.TIME_SERIES_SET = cat.TIME_SERIES_SET := by
  unfold read_one_descriptor at h
  rcases hc : get_type_pieces d.type with - | ⟨g, s, p⟩ <;> rw [hc] at h
  · exact absurd h (by simp)
  · replace h : (if g = "custom".data ∧ custom = false then some cat
        else store_descriptor cat g s p d) = some cat' := h
    split_ifs at h with h1
    · simp only [Option.some.injEq] at h; subst h; rfl
    · unfold store_descriptor at h
      rcases ha : add_service (register_group cat g) g s with - | c2 <;>
        rw [ha] at h
      · exact absurd h (by simp)
      · rw [store_metric_time_series _ _ _ _ _ h, ensure_gs_time_series,
          add_service_time_series _ _ _ _ ha, register_group_time_series]

/-- C9: the time-series probing step is commented out in the source
(metrics_list.py lines 179-181), so whatever the flags, a successful
ingestion run issues no probe call and leaves `TIME_SERIES_SET`
empty. -/
theorem no_time_series_probing (custom timeseries : Bool)
    (l : List MetricDescriptor) (cat : Catalog) (n : Nat)
    (h : read_metric_descriptors custom timeseries l = some (cat, n)) :
    cat.TIME_SERIES_SET = [] := by
  suffices hloop : ∀ (l : List MetricDescriptor) (cat0 : Catalog)
      (count : Nat), read_descriptors_loop custom cat0 count l =
        some (cat, n) → cat.TIME_SERIES_SET = cat0.TIME_SERIES_SET by
    exact hloop l emptyCatalog 0 h
  intro l
  induction l with
  | nil =>
    intro cat0 count h0
    simp only [read_descriptors_loop, Option.some.injEq, Prod.mk.injEq] at h0
    rw [← h0.1]
  | cons d rest ih =>
    intro cat0 count h0
    simp only [read_descriptors_loop] at h0
    rcases hone : read_one_descriptor custom cat0 d with - | cat1 <;>
      rw [hone] at h0
    · exact absurd h0 (by simp)
    · rw [ih cat1 (count + 1) h0]
      exact read_one_time_series_unchanged custom cat0 cat1 d hone

/-- Witness for C9: a run with probing enabled over one descriptor. -/
theorem no_time_series_probing_witness :
    read_metric_descriptors false true
      [⟨"a.b/x".data, some "X".data, some "GAUGE".data, some "INT64".data,
        none, some "d".data, some []⟩] =
      some (⟨["gcp".data], [("gcp".data, ["a".data])],
        [("gcp/a".data, [("x".data,
          ⟨"a.b/x".data, some "X".data, some "GAUGE".data,
            some "INT64".data, none, some "d".data, some []⟩)])], []⟩, 1) ∧
    Catalog.TIME_SERIES_SET ⟨["gcp".data], [("gcp".data, ["a".data])],
        [("gcp/a".data, [("x".data,
          ⟨"a.b/x".data, some "X".data, some "GAUGE".data,
            some "INT64".data, none, some "d".data, some []⟩)])], []⟩ = [] := by
  constructor
  · decide
  · exact no_time_series_probing false true
      [⟨"a.b/x".data, some "X".data, some "GAUGE".data, some "INT64".data,
        none, some "d".data, some []⟩] _ 1 (by decide)

/-- C5: ingesting two descriptors with the same type string leaves
`METRIC_DICT` with exactly one entry at that type's path -- the later
descriptor, last write wins -- while the returned count is 2: one per
record processed, not per unique entry stored. -/
theorem ingest_same_type_twice (custom timeseries : Bool)
    (d1 d2 : MetricDescriptor) (g s p : Str)
    (htype : d1.type = d2.type)
    (hc : get_type_pieces d1.type = some (g, s, p))
    (hskip : g = "custom".data → custom = true) :
    ∃ cat, read_metric_descriptors custom timeseries [d1, d2] =
        some (cat, 2) ∧
      dictFind (g ++ "/".data ++ s) cat.METRIC_DICT = some [(p, d2)] := by
  have hc2 : get_type_pieces d2.type = some (g, s, p) := htype ▸ hc
  have hcond : ¬(g = "custom".data ∧ custom = false) := by
    rintro ⟨h1, h2⟩
    rw [hskip h1] at h2
    simp at h2
  refine ⟨⟨[g], [(g, [s])], [(g ++ "/".data ++ s, [(p, d2)])], []⟩, ?_, ?_⟩
  · simp [read_metric_descriptors, read_descriptors_loop,
      read_one_descriptor, hc, hc2, hcond, store_descriptor, register_group,
      add_service, ensure_gs, store_metric, dictFind, dictInsert, setAdd,
      emptyCatalog]
  · simp [dictFind]

/-- Witness for C5: the same concrete descriptor ingested twice. -/
theorem ingest_same_type_twice_witness :
    ∃ cat, read_metric_descriptors false false
      [⟨"a.b/x".data, some "X".data, none, none, none, some "d".data, none⟩,
       ⟨"a.b/x".data, some "X".data, none, none, none, some "d".data, none⟩] =
        some (cat, 2) ∧
      dictFind ("gcp".data ++ "/".data ++ "a".data) cat.METRIC_DICT =
        some [("x".data,
          ⟨"a.b/x".data, some "X".data, none, none, none, some "d".data,
            none⟩)] :=
  ingest_same_type_twice false false
    ⟨"a.b/x".data, some "X".data, none, none, none, some "d".data, none⟩
    ⟨"a.b/x".data, some "X".data, none, none, none, some "d".data, none⟩
    "gcp".data "a".data "x".data rfl (by decide) (by decide)

/-- C6: a descriptor classified into group custom is skipped entirely
when the custom flag is off (ingesting it leaves every catalog
structure unchanged), and is stored like any other descriptor when the
flag is on. -/
theorem custom_flag_filtering (timeseries : Bool) (d : MetricDescriptor)
    (s p : Str)
    (hc : get_type_pieces d.type = some ("custom".data, s, p)) :
    (∀ cat, read_one_descriptor false cat d = some cat) ∧
    (∃ cat, read_metric_descriptors true timeseries [d] = some (cat, 1) ∧
      cat.GROUP_SET = ["custom".data] ∧
      dictFind "custom".data cat.SERVICE_SET = some [s] ∧
      dictFind ("custom".data ++ "/".data ++ s) cat.METRIC_DICT =
        some [(p, d)]) := by
  constructor
  · intro cat
    simp [read_one_descriptor, hc]
  · refine ⟨⟨["custom".data], [("custom".data, [s])],
      [("custom".data ++ "/".data ++ s, [(p, d)])], []⟩, ?_, rfl, ?_, ?_⟩
    · simp [read_metric_descriptors, read_descriptors_loop,
        read_one_descriptor, hc, store_descriptor, register_group,
        add_service, ensure_gs, store_metric, dictFind, dictInsert, setAdd,
        emptyCatalog]
    · simp [dictFind]
    · simp [dictFind]

/-- Witness for C6 at a concrete custom descriptor. -/
theorem custom_flag_filtering_witness :
    (∀ cat, read_one_descriptor false cat
      ⟨"custom.googleapis.com/svc/m".data, some "M".data, none, none, none,
        some "d".data, none⟩ = some cat) ∧
    (∃ cat, read_metric_descriptors true false
      [⟨"custom.googleapis.com/svc/m".data, some "M".data, none, none, none,
        some "d".data, none⟩] = some (cat, 1) ∧
      cat.GROUP_SET = ["custom".data] ∧
      dictFind "custom".data cat.SERVICE_SET = some ["svc".data] ∧
      dictFind ("custom".data ++ "/".data ++ "svc".data) cat.METRIC_DICT =
        some [("m".data,
          ⟨"custom.googleapis.com/svc/m".data, some "M".data, none, none,
            none, some "d".data, none⟩)]) :=
  custom_flag_filtering false
    ⟨"custom.googleapis.com/svc/m".data, some "M".data, none, none, none,
      some "d".data, none⟩
    "svc".data "m".data (by decide)

/-- Python string comparison `a <= b`: lexicographic by character code
point. -/
def strLe : Str → Str → Bool
  | [], _ => true
  | _ :: _, [] => false
  | a :: as, b :: bs =>
    if a < b then true else if b < a then false else strLe as bs

/-- The `strLe` relation as a `Prop`. -/
def StrLeR (a b : Str) : Prop := strLe a b = true

instance : DecidableRel StrLeR := fun a b => decEq (strLe a b) true

theorem strLe_total : ∀ a b : Str, StrLeR a b ∨ StrLeR b a
  | [], _ => Or.inl rfl
  | _ :: _, [] => Or.inr rfl
  | a :: as, b :: bs => by
    unfold StrLeR strLe
    by_cases hab : a < b
    · simp [hab]
    · by_cases hba : b < a
      · simp [hab, hba]
      · simpa [hab, hba] using strLe_total as bs

theorem strLe_trans : ∀ a b c : Str, StrLeR a b → StrLeR b c → StrLeR a c
  | [], _, _, _, _ => rfl
  | _ :: _, [], _, h1, _ => by simp [StrLeR, strLe] at h1
  | _ :: _, _ :: _, [], _, h2 => by simp [StrLeR, strLe] at h2
  | a :: as, b :: bs, c :: cs, h1, h2 => by
    unfold StrLeR strLe at h1 h2 ⊢
    by_cases hab : a < b
    · by_cases hbc : b < c
      · simp [hab.trans hbc]
      · simp only [if_pos hab] at h1
        by_cases hcb : c < b
        · simp [hbc, hcb] at h2
        · have : b = c := le_antisymm (not_lt.mp hcb) (not_lt.mp hbc)
          subst this
          simp [hab]
    · by_cases hba : b < a
      · simp [hab, hba] at h1
      · have : a = b := le_antisymm (not_lt.mp hba) (not_lt.mp hab)
        subst this
        simp only [lt_irrefl, if_neg, if_false] at h1
        by_cases hbc : a < c
        · simp [hbc]
        · by_cases hcb : c < a
          · simp [hbc, hcb] at h2
          · have : a = c := le_antisymm (not_lt.mp hcb) (not_lt.mp hbc)
            subst this
            simpa [lt_irrefl] using strLe_trans as bs cs (by simpa using h1)
              (by simpa [lt_irrefl] using h2)

theorem strLe_antisymm : ∀ a b : Str, StrLeR a b → StrLeR b a → a = b
  | [], [], _, _ => rfl
  | [], _ :: _, _, h2 => by simp [StrLeR, strLe] at h2
  | _ :: _, [], h1, _ => by simp [StrLeR, strLe] at h1
  | a :: as, b :: bs, h1, h2 => by
    unfold StrLeR strLe at h1 h2
    by_cases hab : a < b
    · simp [hab, lt_asymm hab] at h2
    · by_cases hba : b < a
      · simp [hab, hba] at h1
      · have hh : a = b := le_antisymm (not_lt.mp hba) (not_lt.mp hab)
        subst hh
        simp only [lt_irrefl, if_neg, if_false] at h1 h2
        rw [strLe_antisymm as bs (by simpa using h1) (by simpa using h2)]

instance : IsTotal Str StrLeR := ⟨strLe_total⟩

instance : IsTrans Str StrLeR := ⟨strLe_trans⟩

instance : IsAntisymm Str StrLeR := ⟨strLe_antisymm⟩

/-- Python `sorted(...)` over strings: the ascending lexicographic
reordering.  Realised by a stable insertion sort; every consumer sorts
duplicate-free key lists, for which the sorted result is unique. -/
def sortStr (l : List Str) : List Str := List.insertionSort StrLeR l

theorem sortStr_sorted (l : List Str) : List.Sorted StrLeR (sortStr l) :=
  List.sorted_insertionSort StrLeR l

theorem sortStr_perm (l : List Str) : (sortStr l).Perm l :=
  List.perm_insertionSort StrLeR l

/-- Sorting is invariant under permutation of the input. -/
theorem sortStr_eq_of_perm {l1 l2 : List Str} (h : l1.Perm l2) :
    sortStr l1 = sortStr l2 :=
  List.eq_of_perm_of_sorted
    ((sortStr_perm l1).trans (h.trans (sortStr_perm l2).symm))
    (sortStr_sorted l1) (sortStr_sorted l2)

/-- `tag_def` (metrics_list.py lines 279-280). -/
def tag_def (t : Str) : Str := "\x7b:#".data ++ t ++ "\x7d".data

/-- The fixed page template prefix (metrics_list.py lines 248-273). -/
def PAGE_PREFIX : Str :=
  ("\x7b% extends \"monitoring/_base.html\" %\x7d\n" ++
   "\x7b% block page_title %\x7dMetrics List\x7b% endblock %\x7d\n" ++
   "\n\x7b% block body %\x7d\n\n\x7b% comment %\x7d\n\n" ++
   "    CAUTION: THIS IS A GENERATED FILE.\n" ++
   "    Do not modify this file. Your changes will be\n" ++
   "    overwritten the next time this file is generated.\n" ++
   "\n\x7b% endcomment %\x7d\n\n\n" ++
   "\x7b% setvar feature_disclaimer %\x7d\x7b\x7b product_name \x7d\x7d\x7b% endsetvar %\x7d\n" ++
   "\x7b% include \"cloud/_shared/_notice_beta.html\" %\x7d\n\n" ++
   "This page lists the metrics available in \x7b\x7bproduct_name_short\x7d\x7d.  The\n" ++
   "fields listed for each metric are defined in the\n" ++
   "[\x60MetricDescriptor\x60 object](/monitoring/api/ref_v3/rest/v3/projects.metricDescriptors).\n" ++
   "\nFor an introduction to metrics, metric naming, and metric labels, see\n" ++
   "[Metrics and Time Series](/monitoring/api/v3/metrics).  To use the\n" ++
   "\x7b\x7bapi_name_short\x7d\x7d to browse metrics, retrieve metric data, and create\n" ++
   "custom metrics, see [Using Metrics](/monitoring/api/v3/using-metrics).\n").data

/-- The fixed page template suffix (metrics_list.py lines 275-277). -/
def PAGE_SUFFIX : Str := "\n\x7b% endblock %\x7d\n".data

/-- One iteration of the label loop in `format_metric_lists`
(metrics_list.py lines 322-330): the formatted label cell entry and
the stderr warnings it emits.  A missing description is interpolated
by Python str.format as the literal text `None` (`pyStr`). -/
def format_label (metric_type : Str) (label : Label) : Str × List Str :=
  let warns :=
    if pyTruthy label.description then []
    else ["NO LABEL DESCRIPTION: metric \"".data ++ metric_type ++
      "\", label \"".data ++ label.key ++ "\".".data]
  let formatted_label_type :=
    if pyTruthy label.valueType then
      "(".data ++ pyStr label.valueType ++ ")".data
    else []
  ("\x60".data ++ label.key ++ "\x60".data ++ formatted_label_type ++
    ": ".data ++ pyStr label.description, warns)

/-- One metric row of the service table (metrics_list.py lines
309-335): the row text (with the trailing newline of `print`) and the
label warnings; `none` models the uncaught AttributeError of
`display_name.encode('utf-8')` or `description.encode('utf-8')` when
the field is absent (the warnings already printed before the crash are
discarded together with the interrupted document). -/
def format_row (metric_path : Str) (d : MetricDescriptor) :
    Option (Str × List Str) :=
  let description :=
    if pyTruthy d.description ∧ (pyStr d.description).getLast? ≠ some '.'
    then some (pyStr d.description ++ ".".data)
    else d.description
  let labelResults := (d.labels.getD []).map (format_label d.type)
  match d.displayName, description with
  | some display_name, some descr =>
    some ("\x60".data ++ metric_path ++ "\x60<br/>".data ++ display_name ++
      "<br/>\x60".data ++ pyStr d.metricKind ++ "\x60, \x60".data ++
      pyStr d.valueType ++ "\x60, ".data ++ pyStr d.unit ++ "  | ".data ++
      descr ++ "<br/>".data ++
      List.intercalate "<br/>".data (labelResults.map Prod.fst) ++
      "\n".data,
      (labelResults.map Prod.snd).flatten)
  | _, _ => none

/-- Folds an emitting loop body over a list, concatenating the printed
text and the warnings in order and propagating a crash. -/
def emitAll {α : Type} (f : α → Option (Str × List Str)) :
    List α → Option (Str × List Str)
  | [] => some ([], [])
  | a :: as =>
    match f a, emitAll f as with
    | some (s1, w1), some (s2, w2) => some (s1 ++ s2, w1 ++ w2)
    | _, _ => none

/-- The per-service section (metrics_list.py lines 297-335): service
heading, canonical-prefix note, table header, then one row per metric
path in sorted order.  `none` models a KeyError on `METRIC_DICT[gs]`
(unreachable for ingested catalogs) or a crash inside a row. -/
def format_service
    (metric_dict : List (Str × List (Str × MetricDescriptor)))
    (g s : Str) : Option (Str × List Str) :=
  let gs := g ++ "/".data ++ s
  let s_tag := if s ≠ [] then s else "none".data
  let head :=
    "\n### \x60".data ++ s_tag ++ "\x60 ".data ++
      tag_def (g ++ "-".data ++ s_tag) ++ "\n".data ++
    "\nThe following metric types are prefixed with \x60".data ++
      pyStr ( get_path_prefix g s) ++ "/\x60:\n".data ++
    "\nMetric type<br/>Display name<br/>Kind, Type, Unit | Description<br/>Labels\n".data ++
    "--------------------------------------------------- | ----------------------\n".data
  match dictFind gs metric_dict with
  | none => none
  | some pathmap =>
    (emitAll (fun metric_path =>
        match dictFind metric_path pathmap with
        | none => none
        | some descr => format_row metric_path descr)
      (sortStr (dictKeys pathmap))).map
      (fun r => (head ++ r.1, r.2))

/-- The per-group section (metrics_list.py lines 291-335): group
heading and description, then the services in sorted order.  `none`
models a KeyError on `SERVICE_SET[g]` (unreachable for ingested
catalogs) or a crash below. -/
def format_group (service_set : List (Str × List Str))
    (metric_dict : List (Str × List (Str × MetricDescriptor)))
    (g : Str) : Option (Str × List Str) :=
  let gd := get_group_title_and_descr g
  let head := "\n## ".data ++ gd.1 ++ " ".data ++ tag_def g ++ "\n".data ++
    "\n".data ++ gd.2 ++ "\n".data
  match dictFind g service_set with
  | none => none
  | some sset =>
    (emitAll (format_service metric_dict g) (sortStr sset)).map
      (fun r => (head ++ r.1, r.2))

/-- Embedding of `format_metric_lists` (metrics_list.py lines 283-336):
walks the catalog -- groups, services within a group, and metric paths
within a service, each in ascending lexicographic order -- and returns
the page text printed to stdout together with the warning lines
printed to stderr, or `none` when rendering raises an uncaught
exception. -/
def format_metric_lists (starts_with : Option Str) (cat : Catalog) :
    Option (Str × List Str) :=
  let pre := PAGE_PREFIX ++ "\n".data ++
    (if pyTruthy starts_with then
      "Note: This metric list includes only metrics whose type names begin with \"".data ++
        pyStr starts_with ++ "\".\n".data
     else [])
  (emitAll (format_group cat.SERVICE_SET cat.METRIC_DICT)
      (sortStr cat.GROUP_SET)).map
    (fun r => (pre ++ r.1 ++ PAGE_SUFFIX ++ "\n".data, r.2))

/-- Every member of a list is an infix of its intercalation. -/
theorem infix_of_mem_intercalate (sep x : Str) :
    ∀ (l : List Str), x ∈ l → x <:+: List.intercalate sep l
  | [], h => by simp at h
  | [a], h => by
    simp only [List.mem_singleton] at h
    subst h
    simp [List.intercalate]
  | a :: b :: r, h => by
    have hic : List.intercalate sep (a :: b :: r) =
        a ++ sep ++ List.intercalate sep (b :: r) := by
      simp [List.intercalate]
    rcases List.mem_cons.mp h with rfl | h2
    · rw [hic]
      exact ⟨[], sep ++ List.intercalate sep (b :: r), by simp⟩
    · have hrec := infix_of_mem_intercalate sep x (b :: r) h2
      rw [hic]
      exact hrec.trans ⟨a ++ sep, [], by simp⟩

/-- C8 is false as stated: a label with a missing description is
rendered with the literal description text `None` (Python str.format
of `None`), not with an empty description field. -/
theorem label_missing_description_renders_none :
    (format_label "t".data ⟨"k".data, none, none⟩).1 =
      "\x60k\x60: None".data ∧
    (format_label "t".data ⟨"k".data, none, none⟩).1 ≠
      "\x60k\x60: ".data := by
  decide

/-- C8 (amended): for every metric label with an empty or missing
description, rendering emits the NO LABEL DESCRIPTION warning to the
diagnostic stream and still renders the label in the metric row, never
omitting it; the description field of the rendered entry is the empty
string when the description is present but empty, and the literal text
`None` when it is missing. -/
theorem label_empty_description_warning (t path : Str) (label : Label)
    (d : MetricDescriptor)
    (h : label.description = none ∨ label.description = some []) :
    format_label t label =
      ("\x60".data ++ label.key ++ "\x60".data ++
        (if pyTruthy label.valueType then
          "(".data ++ pyStr label.valueType ++ ")".data else []) ++
        ": ".data ++ pyStr label.description,
       ["NO LABEL DESCRIPTION: metric \"".data ++ t ++
        "\", label \"".data ++ label.key ++ "\".".data]) ∧
    pyStr label.description =
      (if label.description = none then "None".data else []) ∧
    (∀ row ws, label ∈ d.labels.getD [] →
      format_row path d = some (row, ws) →
      (format_label d.type label).1 <:+: row ∧
      "NO LABEL DESCRIPTION: metric \"".data ++ d.type ++
        "\", label \"".data ++ label.key ++ "\".".data ∈ ws) := by
  have htr : pyTruthy label.description = false := by
    rcases h with h | h <;> rw [h] <;> rfl
  refine ⟨?_, ?_, ?_⟩
  · unfold format_label
    rw [htr]
    simp
  · rcases h with h | h <;> rw [h] <;> simp [pyStr]
  · intro row ws hmem hrow
    unfold format_row at hrow
    rcases hdn : d.displayName with - | dn <;> rw [hdn] at hrow
    · exact absurd hrow (by simp)
    · rcases hdesc : (if pyTruthy d.description ∧
          (pyStr d.description).getLast? ≠ some '.'
        then some (pyStr d.description ++ ".".data)
        else d.description) with - | descr <;> rw [hdesc] at hrow
      · exact absurd hrow (by simp)
      · replace hrow : some (_, _) = some (row, ws) := hrow
        simp only [Option.some.injEq, Prod.mk.injEq] at hrow
        obtain ⟨hr, hw⟩ := hrow
        constructor
        · rw [← hr]
          have hmemmap : (format_label d.type label).1 ∈
              (((d.labels.getD []).map (format_label d.type)).map Prod.fst) := by
            exact List.mem_map_of_mem _ (List.mem_map_of_mem _ hmem)
          have hinf := infix_of_mem_intercalate "<br/>".data
            (format_label d.type label).1 _ hmemmap
          refine hinf.trans ?_
          exact ⟨"\x60".data ++ path ++ "\x60<br/>".data ++ dn ++
            "<br/>\x60".data ++ pyStr d.metricKind ++ "\x60, \x60".data ++
            pyStr d.valueType ++ "\x60, ".data ++ pyStr d.unit ++
            "  | ".data ++ descr ++ "<br/>".data, "\n".data, by simp⟩
        · rw [← hw]
          rw [List.mem_flatten]
          refine ⟨(format_label d.type label).2,
            List.mem_map_of_mem _ (List.mem_map_of_mem _ hmem), ?_⟩
          have htr2 : pyTruthy label.description = false := htr
          unfold format_label
          rw [htr2]
          simp

/-- Witness for C8 (amended) at a concrete label and descriptor. -/
theorem label_empty_description_warning_witness :
    format_label "t".data ⟨"k".data, none, none⟩ =
      ("\x60".data ++ "k".data ++ "\x60".data ++
        (if pyTruthy (none : Option Str) then
          "(".data ++ pyStr (none : Option Str) ++ ")".data else []) ++
        ": ".data ++ pyStr (none : Option Str),
       ["NO LABEL DESCRIPTION: metric \"".data ++ "t".data ++
        "\", label \"".data ++ "k".data ++ "\".".data]) ∧
    pyStr (none : Option Str) =
      (if (none : Option Str) = none then "None".data else []) ∧
    (∀ row ws, (⟨"k".data, none, none⟩ : Label) ∈
        (some [⟨"k".data, none, none⟩] : Option (List Label)).getD [] →
      format_row "x".data
        ⟨"a.b/x".data, some "X".data, none, none, none, some "d".data,
          some [⟨"k".data, none, none⟩]⟩ = some (row, ws) →
      (format_label "a.b/x".data ⟨"k".data, none, none⟩).1 <:+: row ∧
      "NO LABEL DESCRIPTION: metric \"".data ++ "a.b/x".data ++
        "\", label \"".data ++ "k".data ++ "\".".data ∈ ws) :=
  label_empty_description_warning "t".data "x".data ⟨"k".data, none, none⟩
    ⟨"a.b/x".data, some "X".data, none, none, none, some "d".data,
      some [⟨"k".data, none, none⟩]⟩ (Or.inl rfl)

/-- C10: the renderer unconditionally dereferences `displayName` and
`description` (calling `.encode` on each) when emitting a metric row,
although the data model treats both as optional: a catalog holding a
stored descriptor that omits either field makes `format_metric_lists`
raise an exception (modelled `none`) instead of emitting a row with an
empty field. -/
theorem render_crashes_on_missing_fields :
    (read_metric_descriptors false false
        [⟨"a.b/x".data, none, none, none, none, some "d".data, none⟩] =
      some (⟨["gcp".data], [("gcp".data, ["a".data])],
        [("gcp/a".data, [("x".data,
          ⟨"a.b/x".data, none, none, none, none, some "d".data, none⟩)])],
        []⟩, 1) ∧
     format_metric_lists none
        ⟨["gcp".data], [("gcp".data, ["a".data])],
          [("gcp/a".data, [("x".data,
            ⟨"a.b/x".data, none, none, none, none, some "d".data,
              none⟩)])], []⟩ = none) ∧
    (read_metric_descriptors false false
        [⟨"a.b/x".data, some "X".data, none, none, none, none, none⟩] =
      some (⟨["gcp".data], [("gcp".data, ["a".data])],
        [("gcp/a".data, [("x".data,
          ⟨"a.b/x".data, some "X".data, none, none, none, none, none⟩)])],
        []⟩, 1) ∧
     format_metric_lists none
        ⟨["gcp".data], [("gcp".data, ["a".data])],
          [("gcp/a".data, [("x".data,
            ⟨"a.b/x".data, some "X".data, none, none, none, none,
              none⟩)])], []⟩ = none) := by
  decide

theorem dictFind_insert_self {β : Type} (k : Str) (v : β)
    (d : List (Str × β)) : dictFind k (dictInsert k v d) = some v := by
  induction d with
  | nil => simp [dictInsert, dictFind]
  | cons kv rest ih =>
    obtain ⟨k', v'⟩ := kv
    by_cases h : k' = k
    · subst h
      simp [dictInsert, dictFind]
    · simp [dictInsert, dictFind, h, ih]

theorem dictFind_insert_ne {β : Type} (k k' : Str) (v : β)
    (d : List (Str × β)) (h : k' ≠ k) :
    dictFind k' (dictInsert k v d) = dictFind k' d := by
  induction d with
  | nil => simp [dictInsert, dictFind, Ne.symm h]
  | cons kv rest ih =>
    obtain ⟨k0, v0⟩ := kv
    by_cases h0 : k0 = k
    · subst h0
      simp [dictInsert, dictFind, Ne.symm h]
    · simp only [dictInsert, if_neg h0, dictFind]
      by_cases h1 : k0 = k'
      · simp [h1]
      · simp [h1, ih]

theorem dictFind_isSome_iff {β : Type} (k : Str) (d : List (Str × β)) :
    (dictFind k d).isSome ↔ k ∈ dictKeys d := by
  induction d with
  | nil => simp [dictFind, dictKeys]
  | cons kv rest ih =>
    obtain ⟨k0, v0⟩ := kv
    simp only [dictKeys, List.map_cons, List.mem_cons]
    by_cases h : k0 = k
    · subst h
      refine iff_of_true ?_ (Or.inl rfl)
      have hfind : dictFind k0 ((k0, v0) :: rest) = some v0 := by
        show (if k0 = k0 then some v0 else dictFind k0 rest) = some v0
        rw [if_pos rfl]
      rw [hfind]
      rfl
    · have hd : dictFind k ((k0, v0) :: rest) = dictFind k rest := by
        show (if k0 = k then some v0 else dictFind k rest) = dictFind k rest
        rw [if_neg h]
      rw [hd, ih]
      simp only [dictKeys]
      constructor
      · exact Or.inr
      · rintro (h1 | hm)
        · exact absurd h1.symm h
        · exact hm

theorem dictFind_eq_none_iff {β : Type} (k : Str) (d : List (Str × β)) :
    dictFind k d = none ↔ k ∉ dictKeys d := by
  rw [← dictFind_isSome_iff]
  cases dictFind k d <;> simp

theorem dictKeys_insert_mem {β : Type} (k : Str) (v : β)
    (d : List (Str × β)) (h : k ∈ dictKeys d) :
    dictKeys (dictInsert k v d) = dictKeys d := by
  induction d with
  | nil => simp [dictKeys] at h
  | cons kv rest ih =>
    obtain ⟨k0, v0⟩ := kv
    by_cases h0 : k0 = k
    · subst h0
      simp [dictInsert, dictKeys]
    · simp only [dictKeys, List.map_cons, List.mem_cons] at h
      rcases h with h1 | h2
      · exact absurd h1.symm h0
      · have ih2 := ih h2
        simp only [dictInsert, if_neg h0, dictKeys, List.map_cons]
        simp only [dictKeys] at ih2
        rw [ih2]

theorem dictKeys_insert_new {β : Type} (k : Str) (v : β)
    (d : List (Str × β)) (h : k ∉ dictKeys d) :
    dictKeys (dictInsert k v d) = dictKeys d ++ [k] := by
  induction d with
  | nil => simp [dictInsert, dictKeys]
  | cons kv rest ih =>
    obtain ⟨k0, v0⟩ := kv
    simp only [dictKeys, List.map_cons, List.mem_cons] at h
    push_neg at h
    have ih2 := ih h.2
    simp only [dictInsert, if_neg (Ne.symm h.1), dictKeys, List.map_cons]
    simp only [dictKeys] at ih2
    rw [ih2]
    rfl

theorem setAdd_mem (x y : Str) (s : List Str) :
    y ∈ setAdd x s ↔ y = x ∨ y ∈ s := by
  unfold setAdd
  split_ifs with h
  · constructor
    · exact fun hy => Or.inr hy
    · rintro (rfl | hy) <;> [exact h; exact hy]
  · simp [or_comm]

theorem setAdd_nodup (x : Str) (s : List Str) (h : s.Nodup) :
    (setAdd x s).Nodup := by
  unfold setAdd
  split_ifs with hx
  · exact h
  · simpa [List.nodup_append, hx] using h

/-- An ingested entry: the classification triple (group, service,
path) of a stored descriptor, together with the descriptor. -/
abbrev Entry := (Str × Str × Str) × MetricDescriptor

/-- The `'g/s'` dictionary key of an entry. -/
def entryGS (e : Entry) : Str := e.1.1 ++ "/".data ++ e.1.2.1

/-- The classification of a descriptor as processed by the ingestion
loop: `none` when the classifier crashes or when the descriptor is
filtered out by the custom flag. -/
def procClass (custom : Bool) (d : MetricDescriptor) :
    Option (Str × Str × Str) :=
  match get_type_pieces d.type with
  | none => none
  | some (g, s, p) =>
    if g = "custom".data ∧ custom = false then none else some (g, s, p)

/-- The entries stored by ingesting a descriptor list, in order. -/
def procList (custom : Bool) (l : List MetricDescriptor) : List Entry :=
  l.filterMap (fun d => (procClass custom d).map (fun gsp => (gsp, d)))

/-- The storage slot of a descriptor: its `'g/s'` key and its path. -/
def classifySlot (d : MetricDescriptor) : Option (Str × Str) :=
  match get_type_pieces d.type with
  | none => none
  | some (g, s, p) => some (g ++ "/".data ++ s, p)

/-- The catalog state models a list of stored entries: every key list
is duplicate-free, each structure holds exactly the groups, services
and paths of the entries, and `METRIC_DICT` lookups return stored
descriptors. -/
structure Models (cat : Catalog) (P : List Entry) : Prop where
  groups_nodup : cat.GROUP_SET.Nodup
  groups_mem : ∀ g, g ∈ cat.GROUP_SET ↔ ∃ e ∈ P, e.1.1 = g
  service_keys : dictKeys cat.SERVICE_SET = cat.GROUP_SET
  services_nodup : ∀ g ss, dictFind g cat.SERVICE_SET = some ss → ss.Nodup
  services_mem : ∀ g ss, dictFind g cat.SERVICE_SET = some ss →
    ∀ s, s ∈ ss ↔ ∃ e ∈ P, e.1.1 = g ∧ e.1.2.1 = s
  metric_keys_nodup : (dictKeys cat.METRIC_DICT).Nodup
  metric_keys_mem : ∀ gs, gs ∈ dictKeys cat.METRIC_DICT ↔
    ∃ e ∈ P, entryGS e = gs
  paths_nodup : ∀ gs pm, dictFind gs cat.METRIC_DICT = some pm →
    (dictKeys pm).Nodup
  paths_mem : ∀ gs pm, dictFind gs cat.METRIC_DICT = some pm →
    ∀ p, p ∈ dictKeys pm ↔ ∃ e ∈ P, entryGS e = gs ∧ e.1.2.2 = p
  paths_val : ∀ gs pm, dictFind gs cat.METRIC_DICT = some pm →
    ∀ p dd, dictFind p pm = some dd →
      ∃ e ∈ P, entryGS e = gs ∧ e.1.2.2 = p ∧ e.2 = dd

theorem models_empty : Models emptyCatalog [] := by
  constructor <;> simp [emptyCatalog, dictFind, dictKeys]

theorem register_group_spec (cat : Catalog) (P : List Entry) (g : Str)
    (M : Models cat P) :
    (register_group cat g).GROUP_SET = setAdd g cat.GROUP_SET ∧
    dictKeys (register_group cat g).SERVICE_SET = setAdd g cat.GROUP_SET ∧
    (∃ ss, dictFind g (register_group cat g).SERVICE_SET = some ss ∧
      ss.Nodup ∧ (∀ s, s ∈ ss ↔ ∃ e ∈ P, e.1.1 = g ∧ e.1.2.1 = s)) ∧
    (∀ g', g' ≠ g → dictFind g' (register_group cat g).SERVICE_SET =
      dictFind g' cat.SERVICE_SET) ∧
    (register_group cat g).METRIC_DICT = cat.METRIC_DICT ∧
    (register_group cat g).TIME_SERIES_SET = cat.TIME_SERIES_SET := by
  by_cases hg : g ∈ cat.GROUP_SET
  · have hreg : register_group cat g = cat := by
      unfold register_group
      rw [if_neg (by simpa using hg)]
    have hsome : (dictFind g cat.SERVICE_SET).isSome := by
      rw [dictFind_isSome_iff, M.service_keys]
      exact hg
    obtain ⟨ss, hss⟩ := Option.isSome_iff_exists.mp hsome
    refine ⟨?_, ?_, ⟨ss, ?_, M.services_nodup g ss hss,
      M.services_mem g ss hss⟩, ?_, ?_, ?_⟩ <;>
      rw [hreg] <;> simp [setAdd, hg, M.service_keys, hss]
  · have hreg : register_group cat g =
        { cat with GROUP_SET := cat.GROUP_SET ++ [g],
                   SERVICE_SET := dictInsert g [] cat.SERVICE_SET } := by
      unfold register_group
      rw [if_pos (by simpa using hg)]
    have hkeys : g ∉ dictKeys cat.SERVICE_SET := by
      rw [M.service_keys]; exact hg
    refine ⟨?_, ?_, ⟨[], ?_, List.nodup_nil, ?_⟩, ?_, ?_, ?_⟩
    · rw [hreg]; simp [setAdd, hg]
    · rw [hreg]
      show dictKeys (dictInsert g [] cat.SERVICE_SET) = setAdd g cat.GROUP_SET
      rw [dictKeys_insert_new g [] cat.SERVICE_SET hkeys, M.service_keys]
      simp [setAdd, hg]
    · rw [hreg]
      exact dictFind_insert_self g [] cat.SERVICE_SET
    · intro s
      simp only [List.not_mem_nil, false_iff]
      rintro ⟨e, heP, he1, -⟩
      exact hg ((M.groups_mem g).mpr ⟨e, heP, he1⟩)
    · intro g' hne
      rw [hreg]
      exact dictFind_insert_ne g g' [] cat.SERVICE_SET hne
    · rw [hreg]
    · rw [hreg]

theorem dictKeys_insert_mem_iff {β : Type} (k q : Str) (v : β)
    (d : List (Str × β)) :
    q ∈ dictKeys (dictInsert k v d) ↔ q = k ∨ q ∈ dictKeys d := by
  by_cases h : k ∈ dictKeys d
  · rw [dictKeys_insert_mem k v d h]
    constructor
    · exact Or.inr
    · rintro (rfl | hq)
      · exact h
      · exact hq
  · rw [dictKeys_insert_new k v d h]
    simp [or_comm]

theorem dictKeys_insert_nodup {β : Type} (k : Str) (v : β)
    (d : List (Str × β)) (h : (dictKeys d).Nodup) :
    (dictKeys (dictInsert k v d)).Nodup := by
  by_cases hk : k ∈ dictKeys d
  · rw [dictKeys_insert_mem k v d hk]
    exact h
  · rw [dictKeys_insert_new k v d hk]
    simp [List.nodup_append, hk, h]

/-- Assembling the invariant for the state after one stored
descriptor, from the pointwise characterization of the updated
structures. -/
theorem models_step (cat cat' : Catalog) (P : List Entry) (g s p : Str)
    (d : MetricDescriptor) (pm0 : List (Str × MetricDescriptor))
    (M : Models cat P)
    (hG : cat'.GROUP_SET = setAdd g cat.GROUP_SET)
    (hSK : dictKeys cat'.SERVICE_SET = setAdd g cat.GROUP_SET)
    (hSg : ∃ newss, dictFind g cat'.SERVICE_SET = some newss ∧
      newss.Nodup ∧
      (∀ x, x ∈ newss ↔ x = s ∨ ∃ e ∈ P, e.1.1 = g ∧ e.1.2.1 = x))
    (hSne : ∀ g', g' ≠ g → dictFind g' cat'.SERVICE_SET =
      dictFind g' cat.SERVICE_SET)
    (hMgs : dictFind (g ++ "/".data ++ s) cat'.METRIC_DICT =
      some (dictInsert p d pm0))
    (hMne : ∀ gs', gs' ≠ g ++ "/".data ++ s →
      dictFind gs' cat'.METRIC_DICT = dictFind gs' cat.METRIC_DICT)
    (hMkeys : dictKeys cat'.METRIC_DICT =
      setAdd (g ++ "/".data ++ s) (dictKeys cat.METRIC_DICT))
    (hpm0nd : (dictKeys pm0).Nodup)
    (hpm0mem : ∀ q, q ∈ dictKeys pm0 ↔
      ∃ e ∈ P, entryGS e = g ++ "/".data ++ s ∧ e.1.2.2 = q)
    (hpm0val : ∀ q dd, dictFind q pm0 = some dd →
      ∃ e ∈ P, entryGS e = g ++ "/".data ++ s ∧ e.1.2.2 = q ∧ e.2 = dd) :
    Models cat' (P ++ [((g, s, p), d)]) := by
  have hGSnew : entryGS ((g, s, p), d) = g ++ "/".data ++ s := rfl
  constructor
  · rw [hG]
    exact setAdd_nodup g cat.GROUP_SET M.groups_nodup
  · intro y
    rw [hG, setAdd_mem]
    constructor
    · rintro (rfl | hy)
      · exact ⟨((y, s, p), d), by simp⟩
      · obtain ⟨e, heP, he⟩ := (M.groups_mem y).mp hy
        exact ⟨e, List.mem_append_left _ heP, he⟩
    · rintro ⟨e, heP, he⟩
      rcases List.mem_append.mp heP with h1 | h2
      · exact Or.inr ((M.groups_mem y).mpr ⟨e, h1, he⟩)
      · rw [List.mem_singleton] at h2
        subst h2
        exact Or.inl he.symm
  · rw [hSK, hG]
  · intro g' ss' hss'
    by_cases hg' : g' = g
    · subst hg'
      obtain ⟨newss, hfind, hnd, -⟩ := hSg
      rw [hss'] at hfind
      cases hfind
      exact hnd
    · rw [hSne g' hg'] at hss'
      exact M.services_nodup g' ss' hss'
  · intro g' ss' hss' x
    by_cases hg' : g' = g
    · subst hg'
      obtain ⟨newss, hfind, -, hmem⟩ := hSg
      rw [hss'] at hfind
      cases hfind
      rw [hmem x]
      constructor
      · rintro (rfl | ⟨e, heP, he1, he2⟩)
        · exact ⟨((g', x, p), d), by simp⟩
        · exact ⟨e, List.mem_append_left _ heP, he1, he2⟩
      · rintro ⟨e, heP, he1, he2⟩
        rcases List.mem_append.mp heP with h1 | h2
        · exact Or.inr ⟨e, h1, he1, he2⟩
        · rw [List.mem_singleton] at h2
          subst h2
          exact Or.inl he2.symm
    · rw [hSne g' hg'] at hss'
      rw [M.services_mem g' ss' hss' x]
      constructor
      · rintro ⟨e, heP, he1, he2⟩
        exact ⟨e, List.mem_append_left _ heP, he1, he2⟩
      · rintro ⟨e, heP, he1, he2⟩
        rcases List.mem_append.mp heP with h1 | h2
        · exact ⟨e, h1, he1, he2⟩
        · rw [List.mem_singleton] at h2
          subst h2
          exact absurd he1.symm hg'
  · rw [hMkeys]
    exact setAdd_nodup _ _ M.metric_keys_nodup
  · intro gs'
    rw [hMkeys, setAdd_mem]
    constructor
    · rintro (rfl | hy)
      · exact ⟨((g, s, p), d), by simp, rfl⟩
      · obtain ⟨e, heP, he⟩ := (M.metric_keys_mem gs').mp hy
        exact ⟨e, List.mem_append_left _ heP, he⟩
    · rintro ⟨e, heP, he⟩
      rcases List.mem_append.mp heP with h1 | h2
      · exact Or.inr ((M.metric_keys_mem gs').mpr ⟨e, h1, he⟩)
      · rw [List.mem_singleton] at h2
        subst h2
        exact Or.inl he.symm
  · intro gs' pm' hpm'
    by_cases hg' : gs' = g ++ "/".data ++ s
    · subst hg'
      rw [hpm'] at hMgs
      cases hMgs
      exact dictKeys_insert_nodup p d pm0 hpm0nd
    · rw [hMne gs' hg'] at hpm'
      exact M.paths_nodup gs' pm' hpm'
  · intro gs' pm' hpm' q
    by_cases hg' : gs' = g ++ "/".data ++ s
    · subst hg'
      rw [hpm'] at hMgs
      cases hMgs
      rw [dictKeys_insert_mem_iff, hpm0mem q]
      constructor
      · rintro (rfl | ⟨e, heP, he1, he2⟩)
        · exact ⟨((g, s, q), d), by simp, rfl, rfl⟩
        · exact ⟨e, List.mem_append_left _ heP, he1, he2⟩
      · rintro ⟨e, heP, he1, he2⟩
        rcases List.mem_append.mp heP with h1 | h2
        · exact Or.inr ⟨e, h1, he1, he2⟩
        · rw [List.mem_singleton] at h2
          subst h2
          exact Or.inl he2.symm
    · rw [hMne gs' hg'] at hpm'
      rw [M.paths_mem gs' pm' hpm' q]
      constructor
      · rintro ⟨e, heP, he1, he2⟩
        exact ⟨e, List.mem_append_left _ heP, he1, he2⟩
      · rintro ⟨e, heP, he1, he2⟩
        rcases List.mem_append.mp heP with h1 | h2
        · exact ⟨e, h1, he1, he2⟩
        · rw [List.mem_singleton] at h2
          subst h2
          exact absurd he1.symm hg'
  · intro gs' pm' hpm' q dd hq
    by_cases hg' : gs' = g ++ "/".data ++ s
    · subst hg'
      rw [hpm'] at hMgs
      cases hMgs
      by_cases hqp : q = p
      · subst hqp
        rw [dictFind_insert_self] at hq
        cases hq
        exact ⟨((g, s, q), d), by simp, rfl, rfl, rfl⟩
      · rw [dictFind_insert_ne p q d pm0 hqp] at hq
        obtain ⟨e, heP, he1, he2, he3⟩ := hpm0val q dd hq
        exact ⟨e, List.mem_append_left _ heP, he1, he2, he3⟩
    · rw [hMne gs' hg'] at hpm'
      obtain ⟨e, heP, he1, he2, he3⟩ := M.paths_val gs' pm' hpm' q dd hq
      exact ⟨e, List.mem_append_left _ heP, he1, he2, he3⟩

theorem ensure_gs_spec_none (cat : Catalog) (gs : Str)
    (h : dictFind gs cat.METRIC_DICT = none) :
    ensure_gs cat gs =
      { cat with METRIC_DICT := dictInsert gs [] cat.METRIC_DICT } := by
  unfold ensure_gs
  rw [if_pos h]

theorem ensure_gs_spec_some (cat : Catalog) (gs : Str)
    (pm : List (Str × MetricDescriptor))
    (h : dictFind gs cat.METRIC_DICT = some pm) :
    ensure_gs cat gs = cat := by
  unfold ensure_gs
  rw [if_neg (by simp [h])]

theorem store_metric_spec (cat : Catalog) (gs p : Str)
    (d : MetricDescriptor) (pm : List (Str × MetricDescriptor))
    (h : dictFind gs cat.METRIC_DICT = some pm) :
    store_metric cat gs p d = some { cat with
      METRIC_DICT := dictInsert gs (dictInsert p d pm) cat.METRIC_DICT } := by
  unfold store_metric
  rw [h]

/-- Storing one classified descriptor succeeds from any state satisfying
the invariant, and extends the modelled entry list by that entry. -/
theorem store_descriptor_models (cat : Catalog) (P : List Entry)
    (g s p : Str) (d : MetricDescriptor) (M : Models cat P) :
    ∃ cat', store_descriptor cat g s p d = some cat' ∧
      Models cat' (P ++ [((g, s, p), d)]) := by
  obtain ⟨hG, hK, ⟨ss, hss, hssnd, hssmem⟩, hfind_ne, hMD, -⟩ :=
    register_group_spec cat P g M
  set reg := register_group cat g with hreg
  set C1 : Catalog :=
    { reg with SERVICE_SET := dictInsert g (setAdd s ss) reg.SERVICE_SET }
    with hC1
  have hadd : add_service reg g s = some C1 := by
    unfold add_service
    rw [hss]
  have hsd : store_descriptor cat g s p d =
      store_metric (ensure_gs C1 (g ++ "/".data ++ s))
        (g ++ "/".data ++ s) p d := by
    unfold store_descriptor
    rw [hadd]
  have hC1MD : C1.METRIC_DICT = cat.METRIC_DICT := hMD
  have hC1G : C1.GROUP_SET = setAdd g cat.GROUP_SET := hG
  have hC1K : dictKeys C1.SERVICE_SET = setAdd g cat.GROUP_SET := by
    show dictKeys (dictInsert g (setAdd s ss) reg.SERVICE_SET) = _
    rw [dictKeys_insert_mem g _ reg.SERVICE_SET
      (by rw [← dictFind_isSome_iff, hss]; rfl)]
    exact hK
  have hC1Sg : dictFind g C1.SERVICE_SET = some (setAdd s ss) :=
    dictFind_insert_self g (setAdd s ss) reg.SERVICE_SET
  have hC1Sne : ∀ g', g' ≠ g →
      dictFind g' C1.SERVICE_SET = dictFind g' cat.SERVICE_SET := by
    intro g' hne
    show dictFind g' (dictInsert g (setAdd s ss) reg.SERVICE_SET) = _
    rw [dictFind_insert_ne g g' _ reg.SERVICE_SET hne]
    exact hfind_ne g' hne
  rcases hfind : dictFind (g ++ "/".data ++ s) cat.METRIC_DICT with - | pm
  · -- the 'g/s' key is new: the empty path map is created first
    have hnotmem : g ++ "/".data ++ s ∉ dictKeys cat.METRIC_DICT :=
      (dictFind_eq_none_iff _ _).mp hfind
    have hens : ensure_gs C1 (g ++ "/".data ++ s) =
        { C1 with METRIC_DICT :=
            dictInsert (g ++ "/".data ++ s) [] C1.METRIC_DICT } := by
      apply ensure_gs_spec_none
      rw [hC1MD]
      exact hfind
    have hfind2 : dictFind (g ++ "/".data ++ s)
        ({ C1 with METRIC_DICT :=
            dictInsert (g ++ "/".data ++ s) [] C1.METRIC_DICT }).METRIC_DICT =
        some [] := dictFind_insert_self _ [] _
    have hstore := store_metric_spec _ (g ++ "/".data ++ s) p d [] hfind2
    refine ⟨_, by rw [hsd, hens, hstore], ?_⟩
    refine models_step cat _ P g s p d [] M hC1G hC1K
      ⟨setAdd s ss, hC1Sg, setAdd_nodup s ss hssnd, ?_⟩ hC1Sne
      (dictFind_insert_self _ _ _) ?_ ?_ (by simp [dictKeys]) ?_
      (by simp [dictFind])
    · intro x
      rw [setAdd_mem, hssmem x]
    · intro gs' hne
      show dictFind gs' (dictInsert _ _
        (dictInsert (g ++ "/".data ++ s) [] C1.METRIC_DICT)) = _
      rw [dictFind_insert_ne _ gs' _ _ hne, dictFind_insert_ne _ gs' _ _ hne,
        hC1MD]
    · show dictKeys (dictInsert (g ++ "/".data ++ s) _
        (dictInsert (g ++ "/".data ++ s) [] C1.METRIC_DICT)) = _
      rw [dictKeys_insert_mem _ _ _
        (by rw [dictKeys_insert_mem_iff]; exact Or.inl rfl)]
      rw [hC1MD] at *
      rw [dictKeys_insert_new _ [] _ hnotmem]
      unfold setAdd
      rw [if_neg hnotmem]
    · intro q
      simp only [dictKeys, List.map_nil, List.not_mem_nil, false_iff]
      rintro ⟨e, heP, he1, -⟩
      exact hnotmem ((M.metric_keys_mem _).mpr ⟨e, heP, he1⟩)
  · -- the 'g/s' key already exists with path map pm
    have hens : ensure_gs C1 (g ++ "/".data ++ s) = C1 := by
      apply ensure_gs_spec_some _ _ pm
      rw [hC1MD]
      exact hfind
    have hfind2 : dictFind (g ++ "/".data ++ s) C1.METRIC_DICT = some pm := by
      rw [hC1MD]
      exact hfind
    have hstore := store_metric_spec C1 (g ++ "/".data ++ s) p d pm hfind2
    refine ⟨_, by rw [hsd, hens, hstore], ?_⟩
    refine models_step cat _ P g s p d pm M hC1G hC1K
      ⟨setAdd s ss, hC1Sg, setAdd_nodup s ss hssnd, ?_⟩ hC1Sne
      (dictFind_insert_self _ _ _) ?_ ?_
      (M.paths_nodup _ pm hfind) (M.paths_mem _ pm hfind)
      (M.paths_val _ pm hfind)
    · intro x
      rw [setAdd_mem, hssmem x]
    · intro gs' hne
      show dictFind gs' (dictInsert _ _ C1.METRIC_DICT) = _
      rw [dictFind_insert_ne _ gs' _ _ hne, hC1MD]
    · show dictKeys (dictInsert (g ++ "/".data ++ s) _ C1.METRIC_DICT) = _
      rw [hC1MD] at *
      rw [dictKeys_insert_mem _ _ _
        (by rw [← dictFind_isSome_iff, hfind]; rfl)]
      unfold setAdd
      rw [if_pos (by rw [← dictFind_isSome_iff, hfind]; rfl)]

theorem read_one_crash (custom : Bool) (cat : Catalog)
    (d : MetricDescriptor) (h : get_type_pieces d.type = none) :
    read_one_descriptor custom cat d = none := by
  unfold read_one_descriptor
  rw [h]

theorem read_one_skip (custom : Bool) (cat : Catalog)
    (d : MetricDescriptor) (g s p : Str)
    (hc : get_type_pieces d.type = some (g, s, p))
    (hskip : g = "custom".data ∧ custom = false) :
    read_one_descriptor custom cat d = some cat := by
  unfold read_one_descriptor
  rw [hc]
  show (if g = "custom".data ∧ custom = false then some cat
    else store_descriptor cat g s p d) = some cat
  rw [if_pos hskip]

theorem read_one_store (custom : Bool) (cat : Catalog) (P : List Entry)
    (d : MetricDescriptor) (g s p : Str) (M : Models cat P)
    (hc : get_type_pieces d.type = some (g, s, p))
    (hns : ¬(g = "custom".data ∧ custom = false)) :
    ∃ cat', read_one_descriptor custom cat d = some cat' ∧
      Models cat' (P ++ [((g, s, p), d)]) := by
  obtain ⟨cat', h1, h2⟩ := store_descriptor_models cat P g s p d M
  refine ⟨cat', ?_, h2⟩
  unfold read_one_descriptor
  rw [hc]
  show (if g = "custom".data ∧ custom = false then some cat
    else store_descriptor cat g s p d) = some cat'
  rw [if_neg hns]
  exact h1

theorem procList_cons_none (custom : Bool) (d : MetricDescriptor)
    (rest : List MetricDescriptor) (h : procClass custom d = none) :
    procList custom (d :: rest) = procList custom rest := by
  simp [procList, List.filterMap_cons, h]

theorem procList_cons_some (custom : Bool) (d : MetricDescriptor)
    (rest : List MetricDescriptor) (gsp : Str × Str × Str)
    (h : procClass custom d = some gsp) :
    procList custom (d :: rest) = (gsp, d) :: procList custom rest := by
  simp [procList, List.filterMap_cons, h]

theorem procClass_skip (custom : Bool) (d : MetricDescriptor) (g s p : Str)
    (hc : get_type_pieces d.type = some (g, s, p))
    (hskip : g = "custom".data ∧ custom = false) :
    procClass custom d = none := by
  unfold procClass
  rw [hc]
  show (if g = "custom".data ∧ custom = false then none else some (g, s, p))
    = none
  rw [if_pos hskip]

theorem procClass_keep (custom : Bool) (d : MetricDescriptor) (g s p : Str)
    (hc : get_type_pieces d.type = some (g, s, p))
    (hns : ¬(g = "custom".data ∧ custom = false)) :
    procClass custom d = some (g, s, p) := by
  unfold procClass
  rw [hc]
  show (if g = "custom".data ∧ custom = false then none else some (g, s, p))
    = some (g, s, p)
  rw [if_neg hns]

/-- When every descriptor classifies, the ingestion loop succeeds, the
count grows by the record count, and the final state models the stored
entries. -/
theorem loop_models_success (custom : Bool) :
    ∀ (l : List MetricDescriptor) (cat0 : Catalog) (P0 : List Entry)
      (count : Nat), Models cat0 P0 →
    (∀ d ∈ l, (get_type_pieces d.type).isSome) →
    ∃ cat, read_descriptors_loop custom cat0 count l =
        some (cat, count + l.length) ∧
      Models cat (P0 ++ procList custom l)
  | [], cat0, P0, count, M, _ =>
    ⟨cat0, by simp [read_descriptors_loop], by simpa [procList] using M⟩
  | d :: rest, cat0, P0, count, M, hall => by
    have hd := hall d (List.mem_cons_self d rest)
    have hrest : ∀ x ∈ rest, (get_type_pieces x.type).isSome :=
      fun x hx => hall x (List.mem_cons_of_mem d hx)
    rcases hc : get_type_pieces d.type with - | ⟨g, s, p⟩
    · rw [hc] at hd
      simp at hd
    · by_cases hskip : g = "custom".data ∧ custom = false
      · obtain ⟨cat, hloop, Mc⟩ :=
          loop_models_success custom rest cat0 P0 (count + 1) M hrest
        refine ⟨cat, ?_, ?_⟩
        · unfold read_descriptors_loop
          rw [read_one_skip custom cat0 d g s p hc hskip]
          show read_descriptors_loop custom cat0 (count + 1) rest = _
          rw [hloop]
          have : count + 1 + rest.length = count + (rest.length + 1) := by
            omega
          rw [this]
          rfl
        · rw [procList_cons_none custom d rest
            (procClass_skip custom d g s p hc hskip)]
          exact Mc
      · obtain ⟨cat1, hone, M1⟩ :=
          read_one_store custom cat0 P0 d g s p M hc hskip
        obtain ⟨cat, hloop, Mc⟩ := loop_models_success custom rest cat1
          (P0 ++ [((g, s, p), d)]) (count + 1) M1 hrest
        refine ⟨cat, ?_, ?_⟩
        · unfold read_descriptors_loop
          rw [hone]
          show read_descriptors_loop custom cat1 (count + 1) rest = _
          rw [hloop]
          have : count + 1 + rest.length = count + (rest.length + 1) := by
            omega
          rw [this]
          rfl
        · rw [procList_cons_some custom d rest (g, s, p)
            (procClass_keep custom d g s p hc hskip)]
          rw [List.append_assoc] at Mc
          exact Mc

/-- When some descriptor fails to classify, the ingestion loop
crashes. -/
theorem loop_models_fail (custom : Bool) :
    ∀ (l : List MetricDescriptor) (cat0 : Catalog) (P0 : List Entry)
      (count : Nat), Models cat0 P0 →
    ¬(∀ d ∈ l, (get_type_pieces d.type).isSome) →
    read_descriptors_loop custom cat0 count l = none
  | [], _, _, _, _, hfail => absurd (by simp) hfail
  | d :: rest, cat0, P0, count, M, hfail => by
    rcases hc : get_type_pieces d.type with - | ⟨g, s, p⟩
    · unfold read_descriptors_loop
      rw [read_one_crash custom cat0 d hc]
    · have hfail' : ¬(∀ x ∈ rest, (get_type_pieces x.type).isSome) := by
        intro hall
        refine hfail ?_
        intro x hx
        rcases List.mem_cons.mp hx with rfl | hx2
        · rw [hc]; rfl
        · exact hall x hx2
      by_cases hskip : g = "custom".data ∧ custom = false
      · unfold read_descriptors_loop
        rw [read_one_skip custom cat0 d g s p hc hskip]
        exact loop_models_fail custom rest cat0 P0 (count + 1) M hfail'
      · obtain ⟨cat1, hone, M1⟩ :=
          read_one_store custom cat0 P0 d g s p M hc hskip
        unfold read_descriptors_loop
        rw [hone]
        exact loop_models_fail custom rest cat1 _ (count + 1) M1 hfail'

theorem emitAll_congr {α : Type} (f f' : α → Option (Str × List Str))
    (l : List α) (h : ∀ a ∈ l, f a = f' a) : emitAll f l = emitAll f' l := by
  induction l with
  | nil => rfl
  | cons a as ih =>
    unfold emitAll
    rw [h a (List.mem_cons_self a as),
      ih (fun x hx => h x (List.mem_cons_of_mem a hx))]

/-- Two catalogs that model the same set of stored entries (with
duplicate-free slots) render to identical output. -/
theorem render_eq_of_models (sw : Option Str) (cat1 cat2 : Catalog)
    (P1 P2 : List Entry) (M1 : Models cat1 P1) (M2 : Models cat2 P2)
    (hPP : ∀ e, e ∈ P1 ↔ e ∈ P2)
    (hinj : ∀ e1 ∈ P1, ∀ e2 ∈ P1, entryGS e1 = entryGS e2 →
      e1.1.2.2 = e2.1.2.2 → e1 = e2) :
    format_metric_lists sw cat1 = format_metric_lists sw cat2 := by
  have hex : ∀ (Q : Entry → Prop), (∃ e ∈ P1, Q e) ↔ (∃ e ∈ P2, Q e) := by
    intro Q
    constructor
    · rintro ⟨e, he, hq⟩
      exact ⟨e, (hPP e).mp he, hq⟩
    · rintro ⟨e, he, hq⟩
      exact ⟨e, (hPP e).mpr he, hq⟩
  have hgroups : sortStr cat1.GROUP_SET = sortStr cat2.GROUP_SET := by
    apply sortStr_eq_of_perm
    rw [List.perm_ext_iff_of_nodup M1.groups_nodup M2.groups_nodup]
    intro g
    rw [M1.groups_mem g, M2.groups_mem g]
    exact hex _
  have hmd_none : ∀ gs, dictFind gs cat1.METRIC_DICT = none ↔
      dictFind gs cat2.METRIC_DICT = none := by
    intro gs
    rw [dictFind_eq_none_iff, dictFind_eq_none_iff, not_iff_not,
      M1.metric_keys_mem gs, M2.metric_keys_mem gs]
    exact hex _
  have hpm_find : ∀ gs pm1 pm2, dictFind gs cat1.METRIC_DICT = some pm1 →
      dictFind gs cat2.METRIC_DICT = some pm2 →
      ∀ q, dictFind q pm1 = dictFind q pm2 := by
    intro gs pm1 pm2 h1 h2 q
    rcases hv1 : dictFind q pm1 with - | dd1
    · rcases hv2 : dictFind q pm2 with - | dd2
      · rfl
      · exfalso
        have hq2 : q ∈ dictKeys pm2 := by
          rw [← dictFind_isSome_iff, hv2]
          rfl
        have hq1 : q ∈ dictKeys pm1 := by
          rw [M1.paths_mem gs pm1 h1 q, hex _]
          exact (M2.paths_mem gs pm2 h2 q).mp hq2
        rw [← dictFind_isSome_iff, hv1] at hq1
        simp at hq1
    · rcases hv2 : dictFind q pm2 with - | dd2
      · exfalso
        have hq1 : q ∈ dictKeys pm1 := by
          rw [← dictFind_isSome_iff, hv1]
          rfl
        have hq2 : q ∈ dictKeys pm2 := by
          rw [M2.paths_mem gs pm2 h2 q, ← hex _]
          exact (M1.paths_mem gs pm1 h1 q).mp hq1
        rw [← dictFind_isSome_iff, hv2] at hq2
        simp at hq2
      · obtain ⟨e1, he1, he1gs, he1p, he1d⟩ :=
          M1.paths_val gs pm1 h1 q dd1 hv1
        obtain ⟨e2, he2, he2gs, he2p, he2d⟩ :=
          M2.paths_val gs pm2 h2 q dd2 hv2
        have he2' : e2 ∈ P1 := (hPP e2).mpr he2
        have heq : e1 = e2 := hinj e1 he1 e2 he2'
          (by rw [he1gs, he2gs]) (by rw [he1p, he2p])
        rw [← he1d, ← he2d, heq]
  have hservice : ∀ g s, format_service cat1.METRIC_DICT g s =
      format_service cat2.METRIC_DICT g s := by
    intro g s
    simp only [format_service]
    rcases h1 : dictFind (g ++ "/".data ++ s) cat1.METRIC_DICT with - | pm1
    · rw [(hmd_none _).mp h1]
    · rcases h2 : dictFind (g ++ "/".data ++ s) cat2.METRIC_DICT
        with - | pm2
      · have hcontra := (hmd_none _).mpr h2
        rw [h1] at hcontra
        exact absurd hcontra (by simp)
      · dsimp only
        have hkeys : sortStr (dictKeys pm1) = sortStr (dictKeys pm2) := by
          apply sortStr_eq_of_perm
          rw [List.perm_ext_iff_of_nodup (M1.paths_nodup _ _ h1)
            (M2.paths_nodup _ _ h2)]
          intro q
          rw [M1.paths_mem _ _ h1 q, M2.paths_mem _ _ h2 q]
          exact hex _
        have hfind := hpm_find _ pm1 pm2 h1 h2
        rw [hkeys, emitAll_congr
          (fun metric_path => match dictFind metric_path pm1 with
            | none => none
            | some descr => format_row metric_path descr)
          (fun metric_path => match dictFind metric_path pm2 with
            | none => none
            | some descr => format_row metric_path descr)
          (sortStr (dictKeys pm2))
          (fun q _ => by simp only [hfind q])]
  have hsvc_none : ∀ g, dictFind g cat1.SERVICE_SET = none ↔
      dictFind g cat2.SERVICE_SET = none := by
    intro g
    rw [dictFind_eq_none_iff, dictFind_eq_none_iff, not_iff_not,
      M1.service_keys, M2.service_keys, M1.groups_mem g, M2.groups_mem g]
    exact hex _
  have hgroupfun : ∀ g, format_group cat1.SERVICE_SET cat1.METRIC_DICT g =
      format_group cat2.SERVICE_SET cat2.METRIC_DICT g := by
    intro g
    simp only [format_group]
    rcases h1 : dictFind g cat1.SERVICE_SET with - | ss1
    · rw [(hsvc_none g).mp h1]
    · rcases h2 : dictFind g cat2.SERVICE_SET with - | ss2
      · have hcontra := (hsvc_none g).mpr h2
        rw [h1] at hcontra
        exact absurd hcontra (by simp)
      · dsimp only
        have hss : sortStr ss1 = sortStr ss2 := by
          apply sortStr_eq_of_perm
          rw [List.perm_ext_iff_of_nodup (M1.services_nodup g ss1 h1)
            (M2.services_nodup g ss2 h2)]
          intro x
          rw [M1.services_mem g ss1 h1 x, M2.services_mem g ss2 h2 x]
          exact hex _
        rw [hss, emitAll_congr (format_service cat1.METRIC_DICT g)
          (format_service cat2.METRIC_DICT g) (sortStr ss2)
          (fun x _ => hservice g x)]
  simp only [format_metric_lists]
  rw [hgroups, emitAll_congr
    (format_group cat1.SERVICE_SET cat1.METRIC_DICT)
    (format_group cat2.SERVICE_SET cat2.METRIC_DICT)
    (sortStr cat2.GROUP_SET) (fun g _ => hgroupfun g)]

/-- The report pipeline as run by `main` (metrics_list.py lines
342-348): ingest the fetched descriptor list, then render the page
from the resulting state.  `none` models a run killed by an uncaught
exception. -/
def run_report (custom timeseries : Bool) (starts_with : Option Str)
    (l : List MetricDescriptor) : Option (Str × List Str) :=
  match read_metric_descriptors custom timeseries l with
  | none => none
  | some (cat, _) => format_metric_lists starts_with cat

theorem procList_mem (custom : Bool) (l : List MetricDescriptor)
    (e : Entry) (h : e ∈ procList custom l) :
    e.2 ∈ l ∧ procClass custom e.2 = some e.1 := by
  unfold procList at h
  rw [List.mem_filterMap] at h
  obtain ⟨d, hd, hfd⟩ := h
  rcases hpc : procClass custom d with - | gsp <;> rw [hpc] at hfd
  · simp at hfd
  · simp only [Option.map_some', Option.some.injEq] at hfd
    subst hfd
    exact ⟨hd, hpc⟩

theorem classifySlot_of_procClass (custom : Bool) (d : MetricDescriptor)
    (g s p : Str) (h : procClass custom d = some (g, s, p)) :
    get_type_pieces d.type = some (g, s, p) ∧
    classifySlot d = some (g ++ "/".data ++ s, p) := by
  unfold procClass at h
  rcases hc : get_type_pieces d.type with - | ⟨g', s', p'⟩ <;> rw [hc] at h
  · simp at h
  · replace h : (if g' = "custom".data ∧ custom = false then none
      else some (g', s', p')) = some (g, s, p) := h
    split_ifs at h with hcond
    simp only [Option.some.injEq, Prod.mk.injEq] at h
    obtain ⟨h1, h2, h3⟩ := h
    subst h1
    subst h2
    subst h3
    refine ⟨rfl, ?_⟩
    unfold classifySlot
    rw [hc]

/-- C4 (amended): for every fixed set of descriptors in which no two
distinct descriptors classify to the same (group/service, path)
storage slot, two independent ingestion-then-render runs over that set
in any two arrival orders produce byte-identical document output; the
renderer visits groups, services within a group, and metric paths
within a service in ascending lexicographic order in both runs. -/
theorem report_deterministic (custom timeseries : Bool) (sw : Option Str)
    (l1 l2 : List MetricDescriptor) (hperm : l1.Perm l2)
    (hinj : ∀ d1 ∈ l1, ∀ d2 ∈ l1, classifySlot d1 ≠ none →
      classifySlot d1 = classifySlot d2 → d1 = d2) :
    run_report custom timeseries sw l1 =
      run_report custom timeseries sw l2 := by
  by_cases hall : ∀ d ∈ l1, (get_type_pieces d.type).isSome
  · have hall2 : ∀ d ∈ l2, (get_type_pieces d.type).isSome :=
      fun d hd => hall d (hperm.mem_iff.mpr hd)
    obtain ⟨cat1, hloop1, M1⟩ :=
      loop_models_success custom l1 emptyCatalog [] 0 models_empty hall
    obtain ⟨cat2, hloop2, M2⟩ :=
      loop_models_success custom l2 emptyCatalog [] 0 models_empty hall2
    rw [List.nil_append] at M1 M2
    have hPP : ∀ e, e ∈ procList custom l1 ↔ e ∈ procList custom l2 := by
      intro e
      unfold procList
      exact (hperm.filterMap _).mem_iff
    have hinjE : ∀ e1 ∈ procList custom l1, ∀ e2 ∈ procList custom l1,
        entryGS e1 = entryGS e2 → e1.1.2.2 = e2.1.2.2 → e1 = e2 := by
      rintro ⟨⟨g1, s1, p1⟩, d1⟩ he1 ⟨⟨g2, s2, p2⟩, d2⟩ he2 hgs hp
      obtain ⟨hd1, hc1⟩ := procList_mem custom l1 _ he1
      obtain ⟨hd2, hc2⟩ := procList_mem custom l1 _ he2
      obtain ⟨-, hs1⟩ := classifySlot_of_procClass custom d1 g1 s1 p1 hc1
      obtain ⟨-, hs2⟩ := classifySlot_of_procClass custom d2 g2 s2 p2 hc2
      simp only [entryGS] at hgs
      simp only at hp
      have hdd : d1 = d2 := by
        refine hinj d1 hd1 d2 hd2 (by rw [hs1]; simp) ?_
        rw [hs1, hs2, hgs, hp]
      subst hdd
      rw [hc1] at hc2
      simp only [Option.some.injEq] at hc2
      rw [hc2]
    unfold run_report read_metric_descriptors
    rw [hloop1, hloop2]
    exact render_eq_of_models sw cat1 cat2 _ _ M1 M2 hPP hinjE
  · have hall2 : ¬∀ d ∈ l2, (get_type_pieces d.type).isSome := by
      intro h2
      exact hall (fun d hd => h2 d (hperm.mem_iff.mp hd))
    unfold run_report read_metric_descriptors
    rw [loop_models_fail custom l1 emptyCatalog [] 0 models_empty hall,
      loop_models_fail custom l2 emptyCatalog [] 0 models_empty hall2]

/-- Witness for C4 (amended) at a concrete one-descriptor set. -/
theorem report_deterministic_witness :
    run_report false false none
      [⟨"a.b/x".data, some "X".data, none, none, none, some "d".data,
        none⟩] =
    run_report false false none
      [⟨"a.b/x".data, some "X".data, none, none, none, some "d".data,
        none⟩] :=
  report_deterministic false false none _ _ (List.Perm.refl _) (by decide)

/-- A tail-recursive string equality test (kernel-evaluation friendly
on long rendered documents). -/
def strEqB : Str → Str → Bool
  | [], [] => true
  | [], _ :: _ => false
  | _ :: _, [] => false
  | a :: as, b :: bs => if a = b then strEqB as bs else false

theorem strEqB_refl : ∀ a : Str, strEqB a a = true
  | [] => rfl
  | a :: as => by
    unfold strEqB
    rw [if_pos rfl]
    exact strEqB_refl as

def listStrEqB : List Str → List Str → Bool
  | [], [] => true
  | a :: as, b :: bs => strEqB a b && listStrEqB as bs
  | _, _ => false

theorem listStrEqB_refl : ∀ a : List Str, listStrEqB a a = true
  | [] => rfl
  | a :: as => by
    unfold listStrEqB
    rw [strEqB_refl a, listStrEqB_refl as]
    rfl

/-- Equality test on rendering results. -/
def reportEqB : Option (Str × List Str) → Option (Str × List Str) → Bool
  | none, none => true
  | some (s1, w1), some (s2, w2) => strEqB s1 s2 && listStrEqB w1 w2
  | _, _ => false

theorem reportEqB_refl : ∀ x, reportEqB x x = true
  | none => rfl
  | some (s, w) => by
    show (strEqB s s && listStrEqB w w) = true
    rw [strEqB_refl s, listStrEqB_refl w]
    rfl

theorem reportEqB_false_ne {x y : Option (Str × List Str)}
    (h : reportEqB x y = false) : x ≠ y := by
  intro he
  subst he
  rw [reportEqB_refl] at h
  cases h

set_option maxRecDepth 4000 in
/-- C4 is false as stated: a two-element descriptor set whose members
share a type string (and hence a storage slot) renders differently
under its two arrival orders. -/
theorem report_order_dependent :
    (⟨"a.b/x".data, some "X1".data, none, none, none, some "d".data, none⟩
        : MetricDescriptor) ≠
      ⟨"a.b/x".data, some "X2".data, none, none, none, some "d".data,
        none⟩ ∧
    ([⟨"a.b/x".data, some "X1".data, none, none, none, some "d".data,
        none⟩,
      ⟨"a.b/x".data, some "X2".data, none, none, none, some "d".data,
        none⟩] : List MetricDescriptor).Perm
      [⟨"a.b/x".data, some "X2".data, none, none, none, some "d".data,
        none⟩,
       ⟨"a.b/x".data, some "X1".data, none, none, none, some "d".data,
        none⟩] ∧
    run_report false false none
      [⟨"a.b/x".data, some "X1".data, none, none, none, some "d".data,
        none⟩,
       ⟨"a.b/x".data, some "X2".data, none, none, none, some "d".data,
        none⟩] ≠
    run_report false false none
      [⟨"a.b/x".data, some "X2".data, none, none, none, some "d".data,
        none⟩,
       ⟨"a.b/x".data, some "X1".data, none, none, none, some "d".data,
        none⟩] := by
  refine ⟨by decide, List.Perm.swap _ _ _, ?_⟩
  apply reportEqB_false_ne
  decide

end MetricsList
